import Mathlib

/-!
Shallow embedding of the Figgie market simulation (src/sim.py): the valuation
model, the particle-filter belief state, the price/acceptance model, the
bot-to-bot trade negotiation, and the round-end pot payout.  Python floats are
modelled as real numbers; the random values consumed by the source
(random.choice, random.uniform, random.random, random.choices) are passed in
explicitly as a tape of inputs.
-/

noncomputable section

/-- The four card suits, candidates for the hidden goal suit. -/
inductive Suit
  | Spades
  | Clubs
  | Hearts
  | Diamonds
deriving DecidableEq, Repr, Inhabited

/-- The candidate list used throughout the source:
["Spades", "Clubs", "Hearts", "Diamonds"]. -/
def suits : List Suit := [Suit.Spades, Suit.Clubs, Suit.Hearts, Suit.Diamonds]

/-- black_suits = ["Spades", "Clubs"] -/
def black_suits : List Suit := [Suit.Spades, Suit.Clubs]

/-- red_suits = ["Hearts", "Diamonds"] -/
def red_suits : List Suit := [Suit.Hearts, Suit.Diamonds]

/-- valuation_given_candidate: 30 if the card suit is the candidate goal,
20 if same colour group, 10 otherwise. -/
def valuation_given_candidate (card_suit candidate_goal : Suit) : ℝ :=
  if card_suit = candidate_goal then 30
  else if (card_suit ∈ black_suits ∧ candidate_goal ∈ black_suits) ∨
          (card_suit ∈ red_suits ∧ candidate_goal ∈ red_suits) then 20
  else 10

/-- expected_value: the belief-weighted sum of valuations over the four
candidate goal suits (the loop over beliefs.items() in the source; the
belief dict always has exactly the four suits as keys). -/
def expected_value (card_suit : Suit) (beliefs : Suit → ℝ) : ℝ :=
  (suits.map fun candidate =>
    beliefs candidate * valuation_given_candidate card_suit candidate).sum

/-- logistic(x) = 1.0 / (1.0 + exp(-x)) -/
def logistic (x : ℝ) : ℝ := 1.0 / (1.0 + Real.exp (-x))

/-- A weighted hypothesis of the particle filter (class Particle). -/
structure Particle where
  candidate_goal : Suit
  weight : ℝ

/-- total_weight = sum(p.weight for p in particles) -/
def total_weight (ps : List Particle) : ℝ := (ps.map Particle.weight).sum

/-- The positive-total branch of normalize_weights: divide every weight by
the total. -/
def normalize_pos (ps : List Particle) : List Particle :=
  ps.map fun p => { p with weight := p.weight / total_weight ps }

/-- A freshly drawn population: one weight-1.0 particle per drawn candidate.
The source draws each candidate by random.choice over the four suits inside
initialize_particles; here the drawn candidates arrive as the list fresh. -/
def reset_particles (fresh : List Suit) : List Particle :=
  fresh.map fun c => { candidate_goal := c, weight := (1.0 : ℝ) }

/-- normalize_weights: if the total weight is positive divide through by it,
otherwise re-run particle initialization (the zero-likelihood reset path).
The source's reset recurses through initialize_particles; a freshly drawn
population has total weight equal to its size, so one unrolling of that
recursion is exact whenever the fresh draw is nonempty (n_particles > 0). -/
def normalize_weights (ps : List Particle) (fresh : List Suit) : List Particle :=
  if 0 < total_weight ps then normalize_pos ps
  else if 0 < total_weight (reset_particles fresh) then
    normalize_pos (reset_particles fresh)
  else reset_particles fresh

/-- initialize_particles: draw one candidate per particle (the drawn
candidates are the list fresh), give each weight 1.0, and normalize. -/
def init_particles (fresh : List Suit) : List Particle :=
  normalize_weights (reset_particles fresh) fresh

/-- The Gaussian likelihood used in ParticleFilter.update:
exp(-(price - expected_val)^2 / (2 * sigma^2)). -/
def gaussian_likelihood (price expected_val sigma : ℝ) : ℝ :=
  Real.exp (-((price - expected_val) ^ 2) / (2 * sigma ^ 2))

/-- The weight-multiplication loop of ParticleFilter.update. -/
def update_weights (ps : List Particle) (card_suit : Suit) (price sigma : ℝ) :
    List Particle :=
  ps.map fun p =>
    { p with weight := (p.weight * gaussian_likelihood price (valuation_given_candidate card_suit p.candidate_goal) sigma) }

/-- effective_sample_size = 1.0 / sum(p.weight ** 2 for p in particles) -/
def effective_sample_size (ps : List Particle) : ℝ :=
  1.0 / (ps.map fun p => p.weight ^ 2).sum

/-- The random draws consumed by one ParticleFilter.update call:
fresh candidates for a possible zero-total reset inside normalize_weights,
the candidates of the particles drawn by random.choices inside
resample_particles, and fresh candidates for the normalize_weights call that
ends resample_particles. -/
structure PFRand where
  fresh : List Suit
  resampleChosen : List Suit
  resampleFresh : List Suit
deriving Inhabited

/-- resample_particles: random.choices draws n particles proportionally to
weight (their candidates arrive as the list chosen), each drawn particle is
rebuilt with weight 1.0, and the population is normalized. -/
def resample_particles (chosen : List Suit) (fresh2 : List Suit) : List Particle :=
  normalize_weights (reset_particles chosen) fresh2

/-- resample_if_needed with threshold_ratio = 0.5. -/
def resample_if_needed (n : ℕ) (ps : List Particle) (r : PFRand) : List Particle :=
  if effective_sample_size ps < (n : ℝ) * 0.5 then
    resample_particles r.resampleChosen r.resampleFresh
  else ps

/-- class ParticleFilter: a particle population of nominal size n_particles. -/
structure ParticleFilter where
  n_particles : ℕ
  particles : List Particle

/-- ParticleFilter.update: multiply weights by the Gaussian likelihood,
normalize, then resample if the effective sample size is too small. -/
def ParticleFilter.update (pf : ParticleFilter) (card_suit : Suit)
    (price sigma : ℝ) (r : PFRand) : ParticleFilter :=
  { pf with particles :=
      (resample_if_needed pf.n_particles
        (normalize_weights (update_weights pf.particles card_suit price sigma)
          r.fresh) r) }

/-- get_belief_distribution: start every suit at 0.0 and add each particle's
weight to the entry of its candidate goal. -/
def get_belief_distribution (ps : List Particle) (s : Suit) : ℝ :=
  (ps.map fun p => if p.candidate_goal = s then p.weight else 0).sum

/-- The sum of the belief distribution over the four suits. -/
def sum_beliefs (ps : List Particle) : ℝ :=
  (suits.map (get_belief_distribution ps)).sum

-- ### Basic lemmas about the particle filter

theorem mem_suits (s : Suit) : s ∈ suits := by cases s <;> simp [suits]

theorem list_sum_map_add {α : Type} (l : List α) (f g : α → ℝ) :
    (l.map fun x => f x + g x).sum = (l.map f).sum + (l.map g).sum := by
  induction l with
  | nil => simp
  | cons a l ih => simp only [List.map_cons, List.sum_cons, ih]; ring

theorem sum_beliefs_eq_total (ps : List Particle) :
    sum_beliefs ps = total_weight ps := by
  induction ps with
  | nil => simp [sum_beliefs, get_belief_distribution, total_weight, suits]
  | cons p ps ih =>
    have hsingle : (suits.map fun s =>
        if p.candidate_goal = s then p.weight else 0).sum = p.weight := by
      cases h : p.candidate_goal <;> simp [suits, h]
    have hfun : get_belief_distribution (p :: ps)
        = fun s => (if p.candidate_goal = s then p.weight else 0)
            + get_belief_distribution ps s := by
      funext s
      simp [get_belief_distribution]
    have hexpand : sum_beliefs (p :: ps)
        = (suits.map fun s => if p.candidate_goal = s then p.weight else 0).sum
          + sum_beliefs ps := by
      rw [sum_beliefs, hfun, list_sum_map_add]
      rfl
    rw [hexpand, hsingle, ih]
    simp [total_weight]

theorem total_weight_map_div (ps : List Particle) (c : ℝ) :
    total_weight (ps.map fun p => { p with weight := p.weight / c })
      = total_weight ps / c := by
  induction ps with
  | nil => simp [total_weight]
  | cons q qs ih =>
    simp only [List.map_cons, total_weight, List.sum_cons] at *
    rw [ih]
    ring

theorem total_weight_normalize_pos (ps : List Particle)
    (h : total_weight ps ≠ 0) :
    total_weight (normalize_pos ps) = 1 := by
  unfold normalize_pos
  rw [total_weight_map_div, div_self h]

theorem total_weight_reset (fresh : List Suit) :
    total_weight (reset_particles fresh) = fresh.length := by
  induction fresh with
  | nil => simp [total_weight, reset_particles]
  | cons c cs ih =>
    simp only [reset_particles, List.map_cons, total_weight, List.sum_cons,
      List.length_cons] at *
    rw [ih]
    push_cast
    ring

theorem total_weight_normalize (ps : List Particle) (fresh : List Suit)
    (hf : fresh ≠ []) :
    total_weight (normalize_weights ps fresh) = 1 := by
  unfold normalize_weights
  split_ifs with h1 h2
  · exact total_weight_normalize_pos ps (ne_of_gt h1)
  · exact total_weight_normalize_pos _ (ne_of_gt h2)
  · exfalso
    apply h2
    rw [total_weight_reset]
    have : 0 < fresh.length := List.length_pos.mpr hf
    exact_mod_cast this

theorem sum_beliefs_normalize (ps : List Particle) (fresh : List Suit)
    (hf : fresh ≠ []) :
    sum_beliefs (normalize_weights ps fresh) = 1 := by
  rw [sum_beliefs_eq_total]
  exact total_weight_normalize ps fresh hf

-- ### The trade side of the engine (bot-to-bot negotiation, sim.py lines 296-402)

/-- A card: a suit symbol followed by a serial number, e.g. the string
"♠3" in the source.  The valuation only ever reads the suit. -/
structure Card where
  suit : Suit
  rank : ℕ
deriving DecidableEq, Inhabited

/-- class Player: name, hand of cards, money, and a particle filter
tracking beliefs about the goal suit. -/
structure Player where
  name : String
  hand : List Card
  money : ℝ
  pf : ParticleFilter

/-- A Trade Event record (the source also stores a display string for the
card, which is determined by the suit). -/
structure TradeEvent where
  trade_index : ℕ
  time : ℝ
  buyer : String
  seller : String
  suit : Suit
  price : ℝ

/-- The mutable state touched by bot_vs_bot_propose_trade: the two
negotiating bots, the remaining players (whose particle filters are also
updated on a settlement), the global trade-event log, and the turn number. -/
structure TradeState where
  botA : Player
  botB : Player
  others : List Player
  events : List TradeEvent
  turn_number : ℕ

/-- Outcome of one negotiation attempt. -/
inductive Outcome
  | aborted
  | accepted
  | rejected
deriving DecidableEq, Repr

/-- The random draws consumed by one bot_vs_bot_propose_trade call:
the buy/sell coin (true = buy), the index of the randomly chosen card,
the uniform(-2, 2) price noise, the uniform [0,1) acceptance roll, and the
particle-filter tapes for the settlement broadcast.  The source draws a
single acceptance roll; roll2 is a second uniform value available on the
tape that the source never reads (the specification asserts that a second,
per-side roll is drawn). -/
structure TradeRand where
  action : Bool
  cardIdx : ℕ
  noise : ℝ
  roll : ℝ
  roll2 : ℝ
  prA : PFRand
  prB : PFRand
  prOthers : List PFRand

/-- Python round(x, 2) (the source logs rounded prices and times;
Python rounds exact half-cents to even, which no claim depends on). -/
def round2 (x : ℝ) : ℝ := (round (x * 100) : ℤ) / 100

/-- probFactor = 0.5 (the steepness constant of both acceptance formulas). -/
def probFactor : ℝ := 0.5

/-- The acceptance probability of the side selling the card:
logistic(probFactor * (price - botB_ev)), sim.py line 330. -/
def seller_accept_prob (price ev : ℝ) : ℝ := logistic (probFactor * (price - ev))

/-- The acceptance probability of the side buying the card:
logistic(probFactor * (botB_ev - price)), sim.py line 377. -/
def buyer_accept_prob (price ev : ℝ) : ℝ := logistic (probFactor * (ev - price))

/-- random.choice from a nonempty hand, the chosen index arriving on the
tape (reduced modulo the hand size so the access is total; the guard in
the trade function ensures the hand is nonempty). -/
def bvb_chosen_card (hand : List Card) (idx : ℕ) : Card :=
  hand.getD (idx % hand.length) default

/-- The proposed price: the proposer's expected value for the suit plus
the uniform(-2, 2) noise, floored at the minimum price 0.5
(sim.py lines 317-320 and 364-367). -/
def bvb_price (proposer : Player) (card_suit : Suit) (noise : ℝ) : ℝ :=
  if expected_value card_suit (get_belief_distribution proposer.pf.particles) + noise < 0.5
  then 0.5
  else expected_value card_suit (get_belief_distribution proposer.pf.particles) + noise

/-- The trade event appended on settlement. -/
def mk_trade_event (st : TradeState) (buyer seller : String) (s : Suit)
    (price : ℝ) : TradeEvent :=
  { trade_index := st.events.length + 1
    time := round2 ((st.turn_number : ℝ) * 10.0)
    buyer := buyer
    seller := seller
    suit := s
    price := round2 price }

/-- The broadcast loop over players.values(): every player's particle
filter is updated with the observed (suit, price).  Each player consumes
its own tape; a missing tape entry is the empty tape. -/
def update_all (card_suit : Suit) (price : ℝ) :
    List Player → List PFRand → List Player
  | [], _ => []
  | b :: bs, [] =>
      { b with pf := b.pf.update card_suit price 3.0 default }
        :: update_all card_suit price bs []
  | b :: bs, r :: rs =>
      { b with pf := b.pf.update card_suit price 3.0 r }
        :: update_all card_suit price bs rs

/-- bot_vs_bot_propose_trade (sim.py lines 296-402): botA proposes a single
buy or sell to botB; acceptance is a single uniform roll against botB's
logistic acceptance probability; on acceptance the card and cash move, the
observation is broadcast to every particle filter, and a trade event is
appended. -/
def bot_vs_bot_propose_trade (st : TradeState) (r : TradeRand) :
    TradeState × Outcome :=
  if r.action then
    -- botA buys a card chosen from botB's hand
    if st.botB.hand = [] then (st, Outcome.aborted)
    else if st.botA.money <
        bvb_price st.botA (bvb_chosen_card st.botB.hand r.cardIdx).suit r.noise
    then (st, Outcome.aborted)
    else if r.roll < seller_accept_prob
        (bvb_price st.botA (bvb_chosen_card st.botB.hand r.cardIdx).suit r.noise)
        (expected_value (bvb_chosen_card st.botB.hand r.cardIdx).suit
          (get_belief_distribution st.botB.pf.particles)) then
      ({ st with
          botA := { st.botA with
            hand := st.botA.hand ++ [bvb_chosen_card st.botB.hand r.cardIdx]
            money := st.botA.money -
              bvb_price st.botA (bvb_chosen_card st.botB.hand r.cardIdx).suit r.noise
            pf := st.botA.pf.update (bvb_chosen_card st.botB.hand r.cardIdx).suit
              (bvb_price st.botA (bvb_chosen_card st.botB.hand r.cardIdx).suit r.noise)
              3.0 r.prA }
          botB := { st.botB with
            hand := st.botB.hand.erase (bvb_chosen_card st.botB.hand r.cardIdx)
            money := st.botB.money +
              bvb_price st.botA (bvb_chosen_card st.botB.hand r.cardIdx).suit r.noise
            pf := st.botB.pf.update (bvb_chosen_card st.botB.hand r.cardIdx).suit
              (bvb_price st.botA (bvb_chosen_card st.botB.hand r.cardIdx).suit r.noise)
              3.0 r.prB }
          others := update_all (bvb_chosen_card st.botB.hand r.cardIdx).suit
            (bvb_price st.botA (bvb_chosen_card st.botB.hand r.cardIdx).suit r.noise)
            st.others r.prOthers
          events := st.events ++ [mk_trade_event st st.botA.name st.botB.name
            (bvb_chosen_card st.botB.hand r.cardIdx).suit
            (bvb_price st.botA (bvb_chosen_card st.botB.hand r.cardIdx).suit r.noise)] },
        Outcome.accepted)
    else (st, Outcome.rejected)
  else
    -- botA sells a card chosen from botA's hand
    if st.botA.hand = [] then (st, Outcome.aborted)
    else if st.botB.money <
        bvb_price st.botA (bvb_chosen_card st.botA.hand r.cardIdx).suit r.noise
    then (st, Outcome.aborted)
    else if r.roll < buyer_accept_prob
        (bvb_price st.botA (bvb_chosen_card st.botA.hand r.cardIdx).suit r.noise)
        (expected_value (bvb_chosen_card st.botA.hand r.cardIdx).suit
          (get_belief_distribution st.botB.pf.particles)) then
      ({ st with
          botA := { st.botA with
            hand := st.botA.hand.erase (bvb_chosen_card st.botA.hand r.cardIdx)
            money := st.botA.money +
              bvb_price st.botA (bvb_chosen_card st.botA.hand r.cardIdx).suit r.noise
            pf := st.botA.pf.update (bvb_chosen_card st.botA.hand r.cardIdx).suit
              (bvb_price st.botA (bvb_chosen_card st.botA.hand r.cardIdx).suit r.noise)
              3.0 r.prA }
          botB := { st.botB with
            hand := st.botB.hand ++ [bvb_chosen_card st.botA.hand r.cardIdx]
            money := st.botB.money -
              bvb_price st.botA (bvb_chosen_card st.botA.hand r.cardIdx).suit r.noise
            pf := st.botB.pf.update (bvb_chosen_card st.botA.hand r.cardIdx).suit
              (bvb_price st.botA (bvb_chosen_card st.botA.hand r.cardIdx).suit r.noise)
              3.0 r.prB }
          others := update_all (bvb_chosen_card st.botA.hand r.cardIdx).suit
            (bvb_price st.botA (bvb_chosen_card st.botA.hand r.cardIdx).suit r.noise)
            st.others r.prOthers
          events := st.events ++ [mk_trade_event st st.botB.name st.botA.name
            (bvb_chosen_card st.botA.hand r.cardIdx).suit
            (bvb_price st.botA (bvb_chosen_card st.botA.hand r.cardIdx).suit r.noise)] },
        Outcome.accepted)
    else (st, Outcome.rejected)

-- ### The round-end payout (turn_loop, sim.py lines 694-709)

/-- The number of cards of the goal suit in a hand. -/
def goal_count (goal : Suit) (b : Player) : ℕ :=
  (b.hand.filter fun c => c.suit == goal).length

/-- max(goal_counts.values()) if goal_counts else 0. -/
def max_goal_count (bots : List Player) (goal : Suit) : ℕ :=
  (bots.map (goal_count goal)).foldr max 0

/-- The names of the agents holding the maximum number of goal-suit cards. -/
def winner_names (bots : List Player) (goal : Suit) : List String :=
  (bots.filter fun b => goal_count goal b == max_goal_count bots goal).map Player.name

/-- The pot split: every winner's money grows by pot / len(winners). -/
def payout (pot : ℝ) (bots : List Player) (goal : Suit) : List Player :=
  bots.map fun b =>
    if b.name ∈ winner_names bots goal
    then { b with money := b.money + pot / ((winner_names bots goal).length : ℝ) }
    else b

/-- Total number of cards held across all agents in a trade state. -/
def total_cards (st : TradeState) : ℕ :=
  st.botA.hand.length + st.botB.hand.length
    + (st.others.map fun b => b.hand.length).sum

/-- Total cash held across all agents in a trade state. -/
def total_cash (st : TradeState) : ℝ :=
  st.botA.money + st.botB.money + (st.others.map Player.money).sum

/-- Total cash held across a list of agents. -/
def total_cash_list (bots : List Player) : ℝ := (bots.map Player.money).sum

-- ### Definitions modelled from the specification's words, for comparison

/-- Modelled from the spec, section 4.3: the proposed price is the average
of the buyer's and the seller's expected values plus the noise, floored at
the strictly positive minimum. -/
def spec_propose_price (buyer_belief seller_belief : Suit → ℝ)
    (card_suit : Suit) (noise : ℝ) : ℝ :=
  if (expected_value card_suit buyer_belief + expected_value card_suit seller_belief) / 2 + noise < 0.5
  then 0.5
  else (expected_value card_suit buyer_belief + expected_value card_suit seller_belief) / 2 + noise

/-- Modelled from the spec, section 4.4: two independent uniform rolls, one
per side, and the trade is accepted iff both rolls fall below their
respective acceptance probabilities. -/
def spec_two_roll_accept (buyerProb sellerProb buyerRoll sellerRoll : ℝ) : Prop :=
  buyerRoll < buyerProb ∧ sellerRoll < sellerProb

-- ### Lemmas about logistic

theorem logistic_pos (x : ℝ) : 0 < logistic x := by
  unfold logistic
  have h := Real.exp_pos (-x)
  positivity

theorem logistic_lt_one (x : ℝ) : logistic x < 1 := by
  unfold logistic
  have h := Real.exp_pos (-x)
  rw [div_lt_one (by linarith)]
  linarith

theorem logistic_zero : logistic 0 = 1 / 2 := by
  unfold logistic
  rw [neg_zero, Real.exp_zero]
  norm_num

theorem logistic_neg (x : ℝ) : logistic (-x) = 1 - logistic x := by
  unfold logistic
  rw [neg_neg]
  have hx := Real.exp_pos x
  have hnx := Real.exp_pos (-x)
  have hprod : Real.exp x * Real.exp (-x) = 1 := by
    rw [← Real.exp_add]
    simp
  field_simp
  nlinarith [hprod]

-- ### Lemmas about the settlement broadcast and the chosen card

theorem update_all_hand (c : Suit) (pr : ℝ) :
    ∀ (bs : List Player) (rs : List PFRand),
      (update_all c pr bs rs).map Player.hand = bs.map Player.hand := by
  intro bs
  induction bs with
  | nil => intro rs; cases rs <;> simp [update_all]
  | cons b bs ih =>
    intro rs
    cases rs with
    | nil => simp [update_all, ih]
    | cons r rs => simp [update_all, ih]

theorem update_all_money (c : Suit) (pr : ℝ) :
    ∀ (bs : List Player) (rs : List PFRand),
      (update_all c pr bs rs).map Player.money = bs.map Player.money := by
  intro bs
  induction bs with
  | nil => intro rs; cases rs <;> simp [update_all]
  | cons b bs ih =>
    intro rs
    cases rs with
    | nil => simp [update_all, ih]
    | cons r rs => simp [update_all, ih]

theorem update_all_hand_lengths (c : Suit) (pr : ℝ) (bs : List Player)
    (rs : List PFRand) :
    (update_all c pr bs rs).map (fun b => b.hand.length)
      = bs.map (fun b => b.hand.length) := by
  have h := update_all_hand c pr bs rs
  have h1 : (update_all c pr bs rs).map (fun b => b.hand.length)
      = ((update_all c pr bs rs).map Player.hand).map List.length := by
    rw [List.map_map]
    rfl
  have h2 : bs.map (fun b => b.hand.length)
      = (bs.map Player.hand).map List.length := by
    rw [List.map_map]
    rfl
  rw [h1, h2, h]

theorem bvb_chosen_card_mem (hand : List Card) (idx : ℕ) (h : hand ≠ []) :
    bvb_chosen_card hand idx ∈ hand := by
  unfold bvb_chosen_card
  have hlen : 0 < hand.length := List.length_pos.mpr h
  have hlt : idx % hand.length < hand.length := Nat.mod_lt _ hlen
  rw [List.getD_eq_getElem hand default hlt]
  exact List.getElem_mem hlt

-- ### Lemmas about the maximum and the winners

theorem foldr_max_mem : ∀ (l : List ℕ), l ≠ [] → l.foldr max 0 ∈ l := by
  intro l
  induction l with
  | nil => intro h; exact absurd rfl h
  | cons a l ih =>
    intro _
    cases l with
    | nil => simp
    | cons b l' =>
      have hne : (b :: l') ≠ [] := by simp
      have hmem := ih hne
      have hfold : (a :: b :: l').foldr max 0 = max a ((b :: l').foldr max 0) :=
        List.foldr_cons _
      rcases le_total a ((b :: l').foldr max 0) with hle | hle
      · rw [hfold, max_eq_right hle]
        exact List.mem_cons_of_mem a hmem
      · rw [hfold, max_eq_left hle]
        exact List.mem_cons_self a _

theorem exists_max_goal_count (bots : List Player) (goal : Suit)
    (h : bots ≠ []) :
    ∃ b ∈ bots, goal_count goal b = max_goal_count bots goal := by
  have hmap : (bots.map (goal_count goal)) ≠ [] := by
    simp [h]
  have hmem := foldr_max_mem _ hmap
  rw [List.mem_map] at hmem
  obtain ⟨b, hb, hcount⟩ := hmem
  exact ⟨b, hb, hcount⟩

theorem winner_names_ne_nil (bots : List Player) (goal : Suit)
    (h : bots ≠ []) : winner_names bots goal ≠ [] := by
  obtain ⟨b, hb, hcount⟩ := exists_max_goal_count bots goal h
  unfold winner_names
  intro hnil
  rw [List.map_eq_nil_iff] at hnil
  have : b ∈ bots.filter fun b => goal_count goal b == max_goal_count bots goal := by
    rw [List.mem_filter]
    exact ⟨hb, by simp [hcount]⟩
  rw [hnil] at this
  exact List.not_mem_nil b this

theorem mem_winner_names_iff (bots : List Player) (goal : Suit)
    (hnodup : (bots.map Player.name).Nodup) (b : Player) (hb : b ∈ bots) :
    b.name ∈ winner_names bots goal
      ↔ goal_count goal b = max_goal_count bots goal := by
  constructor
  · intro h
    rw [winner_names, List.mem_map] at h
    obtain ⟨b', hb', hname⟩ := h
    rw [List.mem_filter] at hb'
    have heq : b' = b := List.inj_on_of_nodup_map hnodup hb'.1 hb hname
    rw [← heq]
    simpa using hb'.2
  · intro h
    rw [winner_names]
    apply List.mem_map_of_mem
    rw [List.mem_filter]
    exact ⟨hb, by simp [h]⟩

theorem sum_map_ite_money (P : Player → Prop) [DecidablePred P] (c : ℝ) :
    ∀ (bots : List Player),
      ((bots.map fun b => if P b then { b with money := b.money + c } else b).map
        Player.money).sum
      = (bots.map Player.money).sum + ((bots.filter fun b => decide (P b)).length : ℝ) * c := by
  intro bots
  induction bots with
  | nil => simp
  | cons b bs ih =>
    by_cases hP : P b
    · simp only [List.map_cons, List.sum_cons, ih, List.filter_cons,
        if_pos hP, decide_eq_true hP]
      simp [List.length_cons]
      ring
    · simp only [List.map_cons, List.sum_cons, ih, List.filter_cons,
        if_neg hP]
      have : decide (P b) = false := decide_eq_false hP
      simp [this]
      ring

theorem payout_total_cash (pot : ℝ) (bots : List Player) (goal : Suit)
    (hne : bots ≠ []) (hnodup : (bots.map Player.name).Nodup) :
    total_cash_list (payout pot bots goal) = total_cash_list bots + pot := by
  unfold payout total_cash_list
  rw [sum_map_ite_money (fun b => b.name ∈ winner_names bots goal)
    (pot / ((winner_names bots goal).length : ℝ)) bots]
  have hfilter : (bots.filter fun b => decide (b.name ∈ winner_names bots goal))
      = bots.filter fun b => goal_count goal b == max_goal_count bots goal := by
    apply List.filter_congr
    intro b hb
    have hiff := mem_winner_names_iff bots goal hnodup b hb
    by_cases hc : goal_count goal b = max_goal_count bots goal
    · simp [hiff.mpr, hc]
    · have : ¬ b.name ∈ winner_names bots goal := fun h => hc (hiff.mp h)
      simp [this, hc]
  rw [hfilter]
  have hlen : ((bots.filter fun b =>
      goal_count goal b == max_goal_count bots goal).length : ℝ)
      = ((winner_names bots goal).length : ℝ) := by
    unfold winner_names
    rw [List.length_map]
  rw [hlen]
  have hwne : winner_names bots goal ≠ [] := winner_names_ne_nil bots goal hne
  have hwpos : (0 : ℝ) < ((winner_names bots goal).length : ℝ) := by
    have : 0 < (winner_names bots goal).length := List.length_pos.mpr hwne
    exact_mod_cast this
  rw [mul_div_assoc']
  rw [mul_comm]
  rw [mul_div_assoc]
  rw [div_self (ne_of_gt hwpos)]
  ring

theorem payout_getD (pot : ℝ) (bots : List Player) (goal : Suit) (i : ℕ)
    (d : Player) (hnodup : (bots.map Player.name).Nodup)
    (hi : i < bots.length) :
    ((payout pot bots goal).getD i d).money
      = (bots.getD i d).money
        + (if goal_count goal (bots.getD i d) = max_goal_count bots goal
           then pot / ((winner_names bots goal).length : ℝ) else 0) := by
  have hlenp : i < (payout pot bots goal).length := by
    unfold payout
    rw [List.length_map]
    exact hi
  rw [List.getD_eq_getElem _ d hlenp, List.getD_eq_getElem _ d hi]
  unfold payout
  rw [List.getElem_map]
  have hbmem : bots[i] ∈ bots := List.getElem_mem hi
  have hiff := mem_winner_names_iff bots goal hnodup bots[i] hbmem
  by_cases hc : goal_count goal bots[i] = max_goal_count bots goal
  · rw [if_pos (hiff.mpr hc), if_pos hc]
  · rw [if_neg (fun h => hc (hiff.mp h)), if_neg hc]
    ring

-- ### Length lemmas for the particle population

theorem length_normalize_pos (ps : List Particle) :
    (normalize_pos ps).length = ps.length := by
  simp [normalize_pos]

theorem length_reset_particles (fresh : List Suit) :
    (reset_particles fresh).length = fresh.length := by
  simp [reset_particles]

theorem length_normalize_weights (ps : List Particle) (fresh : List Suit)
    (n : ℕ) (hps : ps.length = n) (hf : fresh.length = n) :
    (normalize_weights ps fresh).length = n := by
  unfold normalize_weights
  split_ifs <;>
    simp [length_normalize_pos, length_reset_particles, hps, hf]

theorem length_update_weights (ps : List Particle) (c : Suit) (price sigma : ℝ) :
    (update_weights ps c price sigma).length = ps.length := by
  simp [update_weights]

theorem length_pf_update (pf : ParticleFilter) (c : Suit) (price sigma : ℝ)
    (r : PFRand) (hps : pf.particles.length = pf.n_particles)
    (h1 : r.fresh.length = pf.n_particles)
    (h2 : r.resampleChosen.length = pf.n_particles)
    (h3 : r.resampleFresh.length = pf.n_particles) :
    (pf.update c price sigma r).particles.length = pf.n_particles := by
  unfold ParticleFilter.update resample_if_needed resample_particles
  split_ifs with h
  · exact length_normalize_weights _ _ _
      (by rw [length_reset_particles, h2]) h3
  · exact length_normalize_weights _ _ _
      (by rw [length_update_weights, hps]) h1

theorem sum_beliefs_pf_update (pf : ParticleFilter) (c : Suit)
    (price sigma : ℝ) (r : PFRand) (h1 : r.fresh ≠ [])
    (h3 : r.resampleFresh ≠ []) :
    sum_beliefs (pf.update c price sigma r).particles = 1 := by
  unfold ParticleFilter.update resample_if_needed resample_particles
  split_ifs with h
  · exact sum_beliefs_normalize _ _ h3
  · exact sum_beliefs_normalize _ _ h1

-- ### Concrete agents and tapes used to instantiate the theorems

/-- A four-particle population giving the uniform belief (0.25 per suit). -/
def uniformParticles : List Particle :=
  [{ candidate_goal := Suit.Spades, weight := 0.25 },
   { candidate_goal := Suit.Clubs, weight := 0.25 },
   { candidate_goal := Suit.Hearts, weight := 0.25 },
   { candidate_goal := Suit.Diamonds, weight := 0.25 }]

def uniformPF : ParticleFilter := { n_particles := 4, particles := uniformParticles }

/-- A degenerate population: all belief mass on Spades. -/
def spadesParticles : List Particle := [{ candidate_goal := Suit.Spades, weight := 1 }]

def spadesPF : ParticleFilter := { n_particles := 1, particles := spadesParticles }

def botA0 : Player :=
  { name := "P2", hand := [{ suit := Suit.Clubs, rank := 1 }], money := 350, pf := uniformPF }

def botB0 : Player :=
  { name := "P3", hand := [{ suit := Suit.Spades, rank := 1 }], money := 350, pf := uniformPF }

/-- A seller whose whole belief mass sits on Spades (for the price
counterexample). -/
def botBS : Player :=
  { name := "P3", hand := [{ suit := Suit.Spades, rank := 1 }], money := 350, pf := spadesPF }

def st0 : TradeState :=
  { botA := botA0, botB := botB0, others := [], events := [], turn_number := 1 }

/-- A buy attempt whose roll 0.9 is above the 1/2 acceptance probability. -/
def rRej : TradeRand :=
  { action := true, cardIdx := 0, noise := 0, roll := 0.9, roll2 := 0,
    prA := default, prB := default, prOthers := [] }

/-- A buy attempt whose roll 0.2 is below the 1/2 acceptance probability;
the unread second roll is 0.9. -/
def rAcc : TradeRand :=
  { action := true, cardIdx := 0, noise := 0, roll := 0.2, roll2 := 0.9,
    prA := default, prB := default, prOthers := [] }

/-- A sell attempt whose roll 0.2 is below the 1/2 acceptance probability. -/
def rSellAcc : TradeRand :=
  { action := false, cardIdx := 0, noise := 0, roll := 0.2, roll2 := 0.9,
    prA := default, prB := default, prOthers := [] }

-- ### Evaluation lemmas on the concrete agents

theorem belief_uniform (s : Suit) :
    get_belief_distribution uniformParticles s = 0.25 := by
  cases s <;> simp [get_belief_distribution, uniformParticles]

theorem ev_uniform (s : Suit) :
    expected_value s (get_belief_distribution uniformParticles) = 17.5 := by
  cases s <;>
    (simp [expected_value, suits, belief_uniform, valuation_given_candidate,
      black_suits, red_suits]) <;>
    norm_num

theorem belief_spades (s : Suit) :
    get_belief_distribution spadesParticles s
      = if Suit.Spades = s then 1 else 0 := by
  cases s <;> simp [get_belief_distribution, spadesParticles]

theorem ev_spades : expected_value Suit.Spades (get_belief_distribution spadesParticles) = 30 := by
  simp [expected_value, suits, belief_spades, valuation_given_candidate,
    black_suits, red_suits]

theorem seller_prob_half : seller_accept_prob 17.5 17.5 = 1 / 2 := by
  unfold seller_accept_prob probFactor
  rw [show (0.5 : ℝ) * (17.5 - 17.5) = 0 by norm_num, logistic_zero]

theorem buyer_prob_half : buyer_accept_prob 17.5 17.5 = 1 / 2 := by
  unfold buyer_accept_prob probFactor
  rw [show (0.5 : ℝ) * (17.5 - 17.5) = 0 by norm_num, logistic_zero]

theorem price_botA0_spades : bvb_price st0.botA Suit.Spades 0 = 17.5 := by
  unfold bvb_price
  rw [show st0.botA.pf.particles = uniformParticles from rfl, ev_uniform]
  norm_num

theorem price_botA0_clubs : bvb_price st0.botA Suit.Clubs 0 = 17.5 := by
  unfold bvb_price
  rw [show st0.botA.pf.particles = uniformParticles from rfl, ev_uniform]
  norm_num

theorem price_uniform_pf (b : Player) (hb : b.pf.particles = uniformParticles)
    (s : Suit) : bvb_price b s 0 = 17.5 := by
  unfold bvb_price
  rw [hb, ev_uniform]
  norm_num

theorem bvb_st0_rRej :
    bot_vs_bot_propose_trade st0 rRej = (st0, Outcome.rejected) := by
  have hact : rRej.action = true := rfl
  have hne : ¬ (st0.botB.hand = []) := by simp [st0, botB0]
  have hprice : bvb_price st0.botA
      (bvb_chosen_card st0.botB.hand rRej.cardIdx).suit rRej.noise = 17.5 :=
    price_uniform_pf st0.botA rfl Suit.Spades
  have hev : expected_value (bvb_chosen_card st0.botB.hand rRej.cardIdx).suit
      (get_belief_distribution st0.botB.pf.particles) = 17.5 :=
    ev_uniform Suit.Spades
  have hmoney : ¬ (st0.botA.money < bvb_price st0.botA
      (bvb_chosen_card st0.botB.hand rRej.cardIdx).suit rRej.noise) := by
    rw [hprice]
    rw [show st0.botA.money = (350 : ℝ) from rfl]
    norm_num
  have hroll : ¬ (rRej.roll < seller_accept_prob
      (bvb_price st0.botA (bvb_chosen_card st0.botB.hand rRej.cardIdx).suit rRej.noise)
      (expected_value (bvb_chosen_card st0.botB.hand rRej.cardIdx).suit
        (get_belief_distribution st0.botB.pf.particles))) := by
    rw [hprice, hev, seller_prob_half]
    rw [show rRej.roll = (0.9 : ℝ) from rfl]
    norm_num
  unfold bot_vs_bot_propose_trade
  rw [if_pos hact, if_neg hne, if_neg hmoney, if_neg hroll]

theorem bvb_st0_rAcc_accepted :
    (bot_vs_bot_propose_trade st0 rAcc).2 = Outcome.accepted := by
  have hact : rAcc.action = true := rfl
  have hne : ¬ (st0.botB.hand = []) := by simp [st0, botB0]
  have hprice : bvb_price st0.botA
      (bvb_chosen_card st0.botB.hand rAcc.cardIdx).suit rAcc.noise = 17.5 :=
    price_uniform_pf st0.botA rfl Suit.Spades
  have hev : expected_value (bvb_chosen_card st0.botB.hand rAcc.cardIdx).suit
      (get_belief_distribution st0.botB.pf.particles) = 17.5 :=
    ev_uniform Suit.Spades
  have hmoney : ¬ (st0.botA.money < bvb_price st0.botA
      (bvb_chosen_card st0.botB.hand rAcc.cardIdx).suit rAcc.noise) := by
    rw [hprice]
    rw [show st0.botA.money = (350 : ℝ) from rfl]
    norm_num
  have hroll : rAcc.roll < seller_accept_prob
      (bvb_price st0.botA (bvb_chosen_card st0.botB.hand rAcc.cardIdx).suit rAcc.noise)
      (expected_value (bvb_chosen_card st0.botB.hand rAcc.cardIdx).suit
        (get_belief_distribution st0.botB.pf.particles)) := by
    rw [hprice, hev, seller_prob_half]
    rw [show rAcc.roll = (0.2 : ℝ) from rfl]
    norm_num
  unfold bot_vs_bot_propose_trade
  rw [if_pos hact, if_neg hne, if_neg hmoney, if_pos hroll]

theorem belief_map_const (l : List Suit) (w : ℝ) (s : Suit) :
    get_belief_distribution (l.map fun c => { candidate_goal := c, weight := w })
      s = (l.count s : ℝ) * w := by
  induction l with
  | nil => simp [get_belief_distribution]
  | cons c cs ih =>
    simp only [List.map_cons, get_belief_distribution, List.sum_cons] at *
    by_cases h : c = s
    · rw [if_pos h, ih, List.count_cons, if_pos (by simp [h])]
      push_cast
      ring
    · rw [if_neg h, ih, List.count_cons, if_neg (by simp [h])]
      push_cast
      ring

theorem init_particles_eq (fresh : List Suit) (hf : fresh ≠ []) :
    init_particles fresh
      = fresh.map fun c =>
          { candidate_goal := c, weight := (1.0 : ℝ) / (fresh.length : ℝ) } := by
  unfold init_particles normalize_weights
  have hpos : 0 < total_weight (reset_particles fresh) := by
    rw [total_weight_reset]
    exact_mod_cast List.length_pos.mpr hf
  rw [if_pos hpos]
  unfold normalize_pos
  rw [total_weight_reset]
  unfold reset_particles
  rw [List.map_map]
  rfl

-- ### Claim theorems

/-- Claim C7: the selling side's acceptance probability is
logistic(steepness * (price - ev)), the buying side's is
logistic(steepness * (ev - price)) with steepness probFactor = 0.5,
logistic(x) = 1 / (1 + exp(-x)), and the two sides are the same logistic
shape with the sign of the gap flipped (so they sum to one). -/
theorem claim_C7 (price ev x : ℝ) :
    seller_accept_prob price ev = logistic (probFactor * (price - ev))
    ∧ buyer_accept_prob price ev = logistic (probFactor * (ev - price))
    ∧ logistic x = 1 / (1 + Real.exp (-x))
    ∧ buyer_accept_prob price ev = 1 - seller_accept_prob price ev := by
  refine ⟨rfl, rfl, by unfold logistic; norm_num, ?_⟩
  unfold buyer_accept_prob seller_accept_prob
  rw [show probFactor * (ev - price) = -(probFactor * (price - ev)) by ring,
    logistic_neg]

/-- Claim C2 counterexample: with a uniform-belief proposer (buyer) and a
seller convinced of Spades, the code's price for a Spades card at zero noise
is the proposer's expected value 17.5, not the 23.75 that the average of the
buyer's and the seller's expected values demands. -/
theorem claim_C2_counterexample :
    bvb_price botA0 Suit.Spades 0
      ≠ spec_propose_price (get_belief_distribution botA0.pf.particles)
          (get_belief_distribution botBS.pf.particles) Suit.Spades 0 := by
  have h1 : bvb_price botA0 Suit.Spades 0 = 17.5 :=
    price_uniform_pf botA0 rfl Suit.Spades
  have h2 : spec_propose_price (get_belief_distribution botA0.pf.particles)
      (get_belief_distribution botBS.pf.particles) Suit.Spades 0 = 23.75 := by
    unfold spec_propose_price
    rw [show botA0.pf.particles = uniformParticles from rfl,
      show botBS.pf.particles = spadesParticles from rfl, ev_uniform, ev_spades]
    norm_num
  rw [h1, h2]
  norm_num

/-- Claim C2 (amended): in the bot-to-bot path the proposed price is the
proposer's own expected value for the suit plus the uniform noise, floored
at the strictly positive minimum 0.5 -- so it is never less than 0.5 and in
particular never less than or equal to 0.  (The source does not average the
two sides' expected values.) -/
theorem claim_C2_amended (b : Player) (s : Suit) (noise : ℝ) :
    (bvb_price b s noise
        = expected_value s (get_belief_distribution b.pf.particles) + noise
      ∨ bvb_price b s noise = 0.5)
    ∧ 0.5 ≤ bvb_price b s noise
    ∧ 0 < bvb_price b s noise := by
  unfold bvb_price
  split_ifs with h
  · exact ⟨Or.inr rfl, by norm_num, by norm_num⟩
  · have hle := le_of_not_lt h
    exact ⟨Or.inl rfl, hle, lt_of_lt_of_le (by norm_num) hle⟩

/-- Claim C6 counterexample: initialization draws every particle's
hypothesis at random; when all 100 draws come up Spades the initial belief
gives Hearts probability 0, not the 1/4 of the exact uniform distribution. -/
theorem claim_C6_counterexample :
    get_belief_distribution (init_particles (List.replicate 100 Suit.Spades))
      Suit.Hearts = 0
    ∧ ((0 : ℝ) ≠ 1 / 4) := by
  constructor
  · rw [init_particles_eq _ (by simp), belief_map_const]
    simp
  · norm_num

/-- Claim C6 (amended): at initialization (and after the zero-total reset,
which re-runs initialization) every particle carries the same weight, so the
belief distribution equals the empirical frequency of each suit among the
randomly drawn particle hypotheses -- count(s)/n -- which is the uniform
distribution only when the draws happen to be balanced, not always. -/
theorem claim_C6_amended (fresh : List Suit) (ps : List Particle) (s : Suit)
    (hf : fresh ≠ []) :
    get_belief_distribution (init_particles fresh) s
      = (fresh.count s : ℝ) / (fresh.length : ℝ)
    ∧ (¬ 0 < total_weight ps →
        normalize_weights ps fresh = init_particles fresh) := by
  constructor
  · rw [init_particles_eq fresh hf, belief_map_const]
    rw [show (1.0 : ℝ) = 1 by norm_num, mul_one_div]
  · intro h
    unfold normalize_weights init_particles normalize_weights
    rw [if_neg h]
    by_cases hp : 0 < total_weight (reset_particles fresh)
    · rw [if_pos hp, if_pos hp]
    · rw [if_neg hp, if_neg hp]

/-- Witness for claim C6 (amended) at fresh = [Spades]. -/
theorem claim_C6_amended_witness :
    (([Suit.Spades] : List Suit) ≠ [])
    ∧ get_belief_distribution (init_particles [Suit.Spades]) Suit.Spades
        = (([Suit.Spades] : List Suit).count Suit.Spades : ℝ)
          / (([Suit.Spades] : List Suit).length : ℝ) :=
  ⟨by simp, (claim_C6_amended [Suit.Spades] [] Suit.Spades (by simp)).1⟩

/-- Claim C3: the belief distribution sums to 1 (hence is within 1e-9 of 1)
after initialization, after every particle-filter update (including its
internal resampling), and after a normalization that takes the
zero-likelihood reset path. -/
theorem claim_C3 (fresh : List Suit) (ps : List Particle)
    (pf : ParticleFilter) (c : Suit) (price sigma : ℝ) (r : PFRand)
    (hfresh : fresh ≠ []) (h1 : r.fresh ≠ []) (h3 : r.resampleFresh ≠ []) :
    |sum_beliefs (init_particles fresh) - 1| ≤ 1e-9
    ∧ |sum_beliefs (pf.update c price sigma r).particles - 1| ≤ 1e-9
    ∧ (¬ 0 < total_weight ps →
        |sum_beliefs (normalize_weights ps fresh) - 1| ≤ 1e-9) := by
  have e1 : sum_beliefs (init_particles fresh) = 1 := by
    unfold init_particles
    exact sum_beliefs_normalize _ _ hfresh
  have e2 : sum_beliefs (pf.update c price sigma r).particles = 1 :=
    sum_beliefs_pf_update pf c price sigma r h1 h3
  have e3 : sum_beliefs (normalize_weights ps fresh) = 1 :=
    sum_beliefs_normalize _ _ hfresh
  refine ⟨?_, ?_, fun _ => ?_⟩
  · rw [e1]
    norm_num
  · rw [e2]
    norm_num
  · rw [e3]
    norm_num

/-- A concrete particle-filter tape with nonempty single-suit lists. -/
def pfr1 : PFRand :=
  { fresh := [Suit.Spades], resampleChosen := [Suit.Spades],
    resampleFresh := [Suit.Spades] }

/-- Witness for claim C3 at fresh = [Spades], the uniform filter, and a
trade of a Spades card at price 30. -/
theorem claim_C3_witness :
    (([Suit.Spades] : List Suit) ≠ [] ∧ pfr1.fresh ≠ []
      ∧ pfr1.resampleFresh ≠ [])
    ∧ |sum_beliefs (init_particles [Suit.Spades]) - 1| ≤ 1e-9
    ∧ |sum_beliefs (uniformPF.update Suit.Spades 30 3 pfr1).particles - 1| ≤ 1e-9 := by
  have h := claim_C3 [Suit.Spades] [] uniformPF Suit.Spades 30 3 pfr1
    (by simp) (by simp [pfr1]) (by simp [pfr1])
  exact ⟨⟨by simp, by simp [pfr1], by simp [pfr1]⟩, h.1, h.2.1⟩

/-- A two-particle filter and a matching tape of length-2 lists. -/
def pf2 : ParticleFilter :=
  { n_particles := 2
    particles := [{ candidate_goal := Suit.Spades, weight := 0.5 },
                  { candidate_goal := Suit.Clubs, weight := 0.5 }] }

def pfr2 : PFRand :=
  { fresh := [Suit.Spades, Suit.Clubs]
    resampleChosen := [Suit.Spades, Suit.Clubs]
    resampleFresh := [Suit.Spades, Suit.Clubs] }

/-- Claim C10: the particle population keeps its size across
initialization and update (update includes normalization, the
zero-likelihood reset, and the resampling step, each of which rebuilds
exactly n particles when the random tapes have length n), and every
particle's hypothesis is one of the four candidate suits. -/
theorem claim_C10 (fresh : List Suit) (pf : ParticleFilter) (c : Suit)
    (price sigma : ℝ) (r : PFRand)
    (hps : pf.particles.length = pf.n_particles)
    (h1 : r.fresh.length = pf.n_particles)
    (h2 : r.resampleChosen.length = pf.n_particles)
    (h3 : r.resampleFresh.length = pf.n_particles) :
    (init_particles fresh).length = fresh.length
    ∧ (∀ p ∈ init_particles fresh, p.candidate_goal ∈ suits)
    ∧ (pf.update c price sigma r).particles.length = pf.n_particles
    ∧ (pf.update c price sigma r).n_particles = pf.n_particles
    ∧ (∀ p ∈ (pf.update c price sigma r).particles,
        p.candidate_goal ∈ suits) := by
  refine ⟨?_, fun p _ => mem_suits _,
    length_pf_update pf c price sigma r hps h1 h2 h3, rfl,
    fun p _ => mem_suits _⟩
  unfold init_particles
  exact length_normalize_weights _ _ fresh.length (length_reset_particles fresh) rfl

/-- Witness for claim C10 at a concrete two-particle filter. -/
theorem claim_C10_witness :
    (pf2.particles.length = pf2.n_particles
      ∧ pfr2.fresh.length = pf2.n_particles
      ∧ pfr2.resampleChosen.length = pf2.n_particles
      ∧ pfr2.resampleFresh.length = pf2.n_particles)
    ∧ (init_particles [Suit.Spades, Suit.Clubs]).length
        = ([Suit.Spades, Suit.Clubs] : List Suit).length
    ∧ (pf2.update Suit.Spades 30 3 pfr2).particles.length = pf2.n_particles := by
  have h := claim_C10 [Suit.Spades, Suit.Clubs] pf2 Suit.Spades 30 3 pfr2
    rfl rfl rfl rfl
  exact ⟨⟨rfl, rfl, rfl, rfl⟩, h.1, h.2.2.1⟩

/-- Claim C9: at round termination every agent whose goal-suit card count
equals the maximum receives exactly pot / (number of tied agents) added to
its cash (agents below the maximum receive nothing); a two-way tie pays
each winner pot/2 and a four-way tie pays pot/4. -/
theorem claim_C9 (pot : ℝ) (bots : List Player) (goal : Suit) (i : ℕ)
    (d : Player) (hnodup : (bots.map Player.name).Nodup)
    (hi : i < bots.length) :
    ((payout pot bots goal).getD i d).money
      = (bots.getD i d).money
        + (if goal_count goal (bots.getD i d) = max_goal_count bots goal
           then pot / ((winner_names bots goal).length : ℝ) else 0)
    ∧ ((winner_names bots goal).length = 2 →
        pot / ((winner_names bots goal).length : ℝ) = pot / 2)
    ∧ ((winner_names bots goal).length = 4 →
        pot / ((winner_names bots goal).length : ℝ) = pot / 4) := by
  refine ⟨payout_getD pot bots goal i d hnodup hi, ?_, ?_⟩ <;>
    intro h <;> rw [h] <;> norm_num

/-- Witness for claim C9: two agents, the second holding the only Spades
card, goal suit Spades. -/
theorem claim_C9_witness :
    (([botA0, botB0].map Player.name).Nodup ∧ 1 < ([botA0, botB0] : List Player).length)
    ∧ ((payout 100 [botA0, botB0] Suit.Spades).getD 1 botA0).money
      = (([botA0, botB0] : List Player).getD 1 botA0).money
        + (if goal_count Suit.Spades (([botA0, botB0] : List Player).getD 1 botA0)
              = max_goal_count [botA0, botB0] Suit.Spades
           then 100 / ((winner_names [botA0, botB0] Suit.Spades).length : ℝ) else 0) := by
  have hnodup : (([botA0, botB0] : List Player).map Player.name).Nodup := by
    simp [botA0, botB0]
  have hi : 1 < ([botA0, botB0] : List Player).length := by simp
  exact ⟨⟨hnodup, hi⟩,
    (claim_C9 100 [botA0, botB0] Suit.Spades 1 botA0 hnodup hi).1⟩

/-- Claim C8: a rejected negotiation attempt mutates nothing -- the whole
trade state (every hand, every cash balance, every belief state, and the
trade-event log) is returned unchanged. -/
theorem claim_C8 (st : TradeState) (r : TradeRand)
    (h : (bot_vs_bot_propose_trade st r).2 = Outcome.rejected) :
    (bot_vs_bot_propose_trade st r).1 = st := by
  unfold bot_vs_bot_propose_trade at h ⊢
  split_ifs at h ⊢
  all_goals rfl

/-- Witness for claim C8: the concrete rejected attempt (roll 0.9 against
acceptance probability 1/2). -/
theorem claim_C8_witness :
    (bot_vs_bot_propose_trade st0 rRej).2 = Outcome.rejected
    ∧ (bot_vs_bot_propose_trade st0 rRej).1 = st0 := by
  have h : (bot_vs_bot_propose_trade st0 rRej).2 = Outcome.rejected := by
    rw [bvb_st0_rRej]
  exact ⟨h, claim_C8 st0 rRej h⟩

/-- Claim C5: whenever the buying side's cash is strictly below the
proposed price, the attempt aborts before any roll is drawn: the state is
returned unchanged and no trade event is appended, for every value of the
remaining random tape. -/
theorem claim_C5 (st : TradeState) (r : TradeRand) :
    (r.action = true → st.botB.hand ≠ [] →
      st.botA.money <
        bvb_price st.botA (bvb_chosen_card st.botB.hand r.cardIdx).suit r.noise →
      bot_vs_bot_propose_trade st r = (st, Outcome.aborted))
    ∧ (r.action = false → st.botA.hand ≠ [] →
      st.botB.money <
        bvb_price st.botA (bvb_chosen_card st.botA.hand r.cardIdx).suit r.noise →
      bot_vs_bot_propose_trade st r = (st, Outcome.aborted)) := by
  constructor
  · intro hact hne hmoney
    unfold bot_vs_bot_propose_trade
    rw [if_pos hact, if_neg hne, if_pos hmoney]
  · intro hact hne hmoney
    have hact' : ¬ (r.action = true) := by rw [hact]; simp
    unfold bot_vs_bot_propose_trade
    rw [if_neg hact', if_neg hne, if_pos hmoney]

/-- A buyer who cannot afford the 17.5 price. -/
def botPoor : Player :=
  { name := "P4", hand := [{ suit := Suit.Clubs, rank := 2 }], money := 1,
    pf := uniformPF }

def stPoor : TradeState :=
  { botA := botPoor, botB := botB0, others := [], events := [],
    turn_number := 1 }

/-- Witness for claim C5: the poor buyer (cash 1 < price 17.5) aborts. -/
theorem claim_C5_witness :
    (rRej.action = true ∧ stPoor.botB.hand ≠ []
      ∧ stPoor.botA.money <
          bvb_price stPoor.botA
            (bvb_chosen_card stPoor.botB.hand rRej.cardIdx).suit rRej.noise)
    ∧ bot_vs_bot_propose_trade stPoor rRej = (stPoor, Outcome.aborted) := by
  have h1 : rRej.action = true := rfl
  have h2 : stPoor.botB.hand ≠ [] := by simp [stPoor, botB0]
  have h3 : stPoor.botA.money <
      bvb_price stPoor.botA
        (bvb_chosen_card stPoor.botB.hand rRej.cardIdx).suit rRej.noise := by
    have hp : bvb_price stPoor.botA
        (bvb_chosen_card stPoor.botB.hand rRej.cardIdx).suit rRej.noise = 17.5 :=
      price_uniform_pf stPoor.botA rfl Suit.Spades
    rw [hp, show stPoor.botA.money = (1 : ℝ) from rfl]
    norm_num
  exact ⟨⟨h1, h2, h3⟩, (claim_C5 stPoor rRej).1 h1 h2 h3⟩

/-- Claim C1 counterexample: an attempt the code settles as Accepted while
the two-roll rule of the claim rejects it.  The attempt's price and both
sides' expected values are all 17.5, so both the buyer-side and the
seller-side acceptance probabilities equal 1/2; the tape carries rolls 0.2
and 0.9.  Whichever of the two rolls the claim assigns to the second side,
0.9 fails its test, so the claimed two-roll acceptance predicate is false
-- yet the code, which draws only the single roll 0.2 for the counterparty,
accepts and settles the trade. -/
theorem claim_C1_counterexample :
    (bot_vs_bot_propose_trade st0 rAcc).2 = Outcome.accepted
    ∧ bvb_price st0.botA
        (bvb_chosen_card st0.botB.hand rAcc.cardIdx).suit rAcc.noise = 17.5
    ∧ expected_value (bvb_chosen_card st0.botB.hand rAcc.cardIdx).suit
        (get_belief_distribution st0.botA.pf.particles) = 17.5
    ∧ expected_value (bvb_chosen_card st0.botB.hand rAcc.cardIdx).suit
        (get_belief_distribution st0.botB.pf.particles) = 17.5
    ∧ ¬ spec_two_roll_accept (buyer_accept_prob 17.5 17.5)
        (seller_accept_prob 17.5 17.5) rAcc.roll rAcc.roll2
    ∧ ¬ spec_two_roll_accept (buyer_accept_prob 17.5 17.5)
        (seller_accept_prob 17.5 17.5) rAcc.roll2 rAcc.roll := by
  refine ⟨bvb_st0_rAcc_accepted, price_uniform_pf st0.botA rfl Suit.Spades,
    ev_uniform Suit.Spades, ev_uniform Suit.Spades, ?_, ?_⟩
  · unfold spec_two_roll_accept
    rw [seller_prob_half]
    intro hcontra
    have h2 := hcontra.2
    rw [show rAcc.roll2 = (0.9 : ℝ) from rfl] at h2
    norm_num at h2
  · unfold spec_two_roll_accept
    rw [buyer_prob_half]
    intro hcontra
    have h1 := hcontra.1
    rw [show rAcc.roll2 = (0.9 : ℝ) from rfl] at h1
    norm_num at h1

/-- Claim C1 (amended): once an attempt reaches the Proposed state, the
protocol draws a single uniform roll for the counterparty botB; the trade
is Accepted if and only if that one roll falls below botB's logistic
acceptance probability (seller-side formula when botA buys, buyer-side
formula when botA sells).  The proposer draws no roll of its own, and the
outcome is independent of any further random value on the tape. -/
theorem claim_C1_amended (st : TradeState) (r : TradeRand) :
    (r.action = true → st.botB.hand ≠ [] →
      ¬ st.botA.money <
          bvb_price st.botA (bvb_chosen_card st.botB.hand r.cardIdx).suit r.noise →
      ((bot_vs_bot_propose_trade st r).2 = Outcome.accepted
        ↔ r.roll < seller_accept_prob
            (bvb_price st.botA (bvb_chosen_card st.botB.hand r.cardIdx).suit r.noise)
            (expected_value (bvb_chosen_card st.botB.hand r.cardIdx).suit
              (get_belief_distribution st.botB.pf.particles))))
    ∧ (r.action = false → st.botA.hand ≠ [] →
      ¬ st.botB.money <
          bvb_price st.botA (bvb_chosen_card st.botA.hand r.cardIdx).suit r.noise →
      ((bot_vs_bot_propose_trade st r).2 = Outcome.accepted
        ↔ r.roll < buyer_accept_prob
            (bvb_price st.botA (bvb_chosen_card st.botA.hand r.cardIdx).suit r.noise)
            (expected_value (bvb_chosen_card st.botA.hand r.cardIdx).suit
              (get_belief_distribution st.botB.pf.particles))))
    ∧ (∀ v : ℝ, bot_vs_bot_propose_trade st { r with roll2 := v }
        = bot_vs_bot_propose_trade st r) := by
  refine ⟨?_, ?_, ?_⟩
  · intro hact hne hmoney
    unfold bot_vs_bot_propose_trade
    rw [if_pos hact, if_neg hne, if_neg hmoney]
    split_ifs with hroll
    · simp [hroll]
    · simp [hroll]
  · intro hact hne hmoney
    have hact' : ¬ (r.action = true) := by rw [hact]; simp
    unfold bot_vs_bot_propose_trade
    rw [if_neg hact', if_neg hne, if_neg hmoney]
    split_ifs with hroll
    · simp [hroll]
    · simp [hroll]
  · intro v
    cases r
    rfl

/-- Witness for claim C1 (amended): the concrete accepted buy attempt. -/
theorem claim_C1_amended_witness :
    (rAcc.action = true ∧ st0.botB.hand ≠ []
      ∧ ¬ st0.botA.money <
          bvb_price st0.botA
            (bvb_chosen_card st0.botB.hand rAcc.cardIdx).suit rAcc.noise)
    ∧ ((bot_vs_bot_propose_trade st0 rAcc).2 = Outcome.accepted
        ↔ rAcc.roll < seller_accept_prob
            (bvb_price st0.botA
              (bvb_chosen_card st0.botB.hand rAcc.cardIdx).suit rAcc.noise)
            (expected_value (bvb_chosen_card st0.botB.hand rAcc.cardIdx).suit
              (get_belief_distribution st0.botB.pf.particles))) := by
  have h1 : rAcc.action = true := rfl
  have h2 : st0.botB.hand ≠ [] := by simp [st0, botB0]
  have h3 : ¬ st0.botA.money <
      bvb_price st0.botA
        (bvb_chosen_card st0.botB.hand rAcc.cardIdx).suit rAcc.noise := by
    have hp : bvb_price st0.botA
        (bvb_chosen_card st0.botB.hand rAcc.cardIdx).suit rAcc.noise = 17.5 :=
      price_uniform_pf st0.botA rfl Suit.Spades
    rw [hp, show st0.botA.money = (350 : ℝ) from rfl]
    norm_num
  exact ⟨⟨h1, h2, h3⟩, (claim_C1_amended st0 rAcc).1 h1 h2 h3⟩

/-- Claim C4: every negotiation attempt conserves the total number of cards
across all hands and the total cash across all agents (settlement is a
zero-sum transfer), and the round-end payout raises total cash by exactly
the pot. -/
theorem claim_C4 :
    (∀ (st : TradeState) (r : TradeRand),
      total_cards (bot_vs_bot_propose_trade st r).1 = total_cards st
      ∧ total_cash (bot_vs_bot_propose_trade st r).1 = total_cash st)
    ∧ (∀ (pot : ℝ) (bots : List Player) (goal : Suit),
        bots ≠ [] → (bots.map Player.name).Nodup →
        total_cash_list (payout pot bots goal) = total_cash_list bots + pot) := by
  constructor
  · intro st r
    unfold bot_vs_bot_propose_trade
    split_ifs with h1 h2 h3 h4 h5 h6 h7
    · exact ⟨rfl, rfl⟩
    · exact ⟨rfl, rfl⟩
    · -- buy settlement
      have hmem : bvb_chosen_card st.botB.hand r.cardIdx ∈ st.botB.hand :=
        bvb_chosen_card_mem _ _ h2
      have hpos : 0 < st.botB.hand.length := List.length_pos.mpr h2
      constructor
      · simp only [total_cards]
        rw [update_all_hand_lengths, List.length_append,
          List.length_erase_of_mem hmem]
        simp only [List.length_cons, List.length_nil]
        omega
      · simp only [total_cash]
        rw [update_all_money]
        ring
    · exact ⟨rfl, rfl⟩
    · exact ⟨rfl, rfl⟩
    · exact ⟨rfl, rfl⟩
    · -- sell settlement
      have hmem : bvb_chosen_card st.botA.hand r.cardIdx ∈ st.botA.hand :=
        bvb_chosen_card_mem _ _ h5
      have hpos : 0 < st.botA.hand.length := List.length_pos.mpr h5
      constructor
      · simp only [total_cards]
        rw [update_all_hand_lengths, List.length_append,
          List.length_erase_of_mem hmem]
        simp only [List.length_cons, List.length_nil]
        omega
      · simp only [total_cash]
        rw [update_all_money]
        ring
    · exact ⟨rfl, rfl⟩
  · intro pot bots goal hne hnodup
    exact payout_total_cash pot bots goal hne hnodup

/-- Witness for claim C4: the concrete accepted trade and a concrete
two-agent payout. -/
theorem claim_C4_witness :
    (([botA0, botB0] : List Player) ≠ []
      ∧ (([botA0, botB0] : List Player).map Player.name).Nodup)
    ∧ total_cards (bot_vs_bot_propose_trade st0 rAcc).1 = total_cards st0
    ∧ total_cash (bot_vs_bot_propose_trade st0 rAcc).1 = total_cash st0
    ∧ total_cash_list (payout 100 [botA0, botB0] Suit.Spades)
        = total_cash_list [botA0, botB0] + 100 := by
  have hne : ([botA0, botB0] : List Player) ≠ [] := by simp
  have hnodup : (([botA0, botB0] : List Player).map Player.name).Nodup := by
    simp [botA0, botB0]
  exact ⟨⟨hne, hnodup⟩, (claim_C4.1 st0 rAcc).1, (claim_C4.1 st0 rAcc).2,
    claim_C4.2 100 [botA0, botB0] Suit.Spades hne hnodup⟩
